import Mathlib

/-!
Verification development for the hawkeye URL-change monitor.

The Go source is shallowly embedded: byte buffers (`[]byte`) become
`List Nat` (one `Nat` per byte), `time.Duration` becomes `Int`
(nanoseconds), `time.Time` becomes `Nat`, Go maps become association
lists, and each method that mutates its receiver becomes a function
returning the updated value.  Goroutine effects (`go m.run()`, the
forwarding tasks) are made visible as explicit counters, and the
shutdown interleaving of `Manager.Stop` with `forwardChanges` is
embedded as a small labelled transition system.
-/

set_option maxRecDepth 16000

namespace Hawkeye

/-- Byte buffers (`[]byte` in Go) are lists of byte values. -/
abbrev Bytes := List Nat

/-- ASCII string literal as a byte buffer (all inputs used in proofs are ASCII,
where Go's `[]byte(s)` agrees with the code points). -/
def bytes (s : String) : Bytes :=
  s.data.map Char.toNat

/-- Render a byte buffer as a string (inverse of `bytes` on ASCII data),
modelling Go's `string(b)`. -/
def strOf (l : Bytes) : String :=
  String.mk (l.map Char.ofNat)

/-- Boolean prefix test on byte buffers. -/
def isPrefixB : Bytes → Bytes → Bool
  | [], _ => true
  | _ :: _, [] => false
  | a :: as, b :: bs => a == b && isPrefixB as bs

/-- The prefix relation on lists, written out explicitly. -/
def listPre (p s : List Nat) : Prop :=
  ∃ t, p ++ t = s

/-- The substring (contiguous infix) relation on lists. -/
def listInf (p s : List Nat) : Prop :=
  ∃ u v, u ++ p ++ v = s

/-- Replacement scan of Go's `regexp.ReplaceAll` for a literal, nonempty
pattern `pc :: pr`: at each position, if the pattern starts there the
replacement `r` is emitted and the rest of the match is skipped (the first
argument counts bytes of a recognised match still to be consumed),
otherwise the byte is kept; matches are leftmost and non-overlapping. -/
def replaceLoop (pc : Nat) (pr r : List Nat) : Nat → List Nat → List Nat
  | _, [] => []
  | 0, c :: rest =>
    if isPrefixB (pc :: pr) (c :: rest) then
      r ++ replaceLoop pc pr r pr.length rest
    else
      c :: replaceLoop pc pr r 0 rest
  | skip + 1, _ :: rest => replaceLoop pc pr r skip rest

/-- Go `regexp.ReplaceAll` for a literal pattern: an empty pattern matches the
empty string at every byte position (so the replacement is inserted around
every byte), a nonempty pattern is handled by `replaceLoop`. -/
def goReplaceAll (p r s : List Nat) : List Nat :=
  match p with
  | [] => r ++ s.foldr (fun c acc => c :: (r ++ acc)) []
  | pc :: pr => replaceLoop pc pr r 0 s

/-- ContentFilter (pkg/monitor/filters.go): the `Apply`/`Description`
interface capability, embedded as a record of the two methods. -/
structure ContentFilter where
  apply : Bytes → Bytes
  descr : String

/-- ContentFilterList (pkg/monitor/filters.go). -/
abbrev ContentFilterList := List ContentFilter

/-- ContentFilterList.Apply: runs all filters in the list, in order. -/
def applyFilters (l : ContentFilterList) (content : Bytes) : Bytes :=
  l.foldl (fun result f => f.apply result) content

/-- RegexFilter (pkg/monitor/filters.go) specialised to a literal (metacharacter
free) pattern, for which Go's compiled regexp replaces exactly the leftmost
non-overlapping literal occurrences. -/
def RegexFilterLit (pattern replacement : Bytes) (description : String) : ContentFilter :=
  { apply := goReplaceAll pattern replacement, descr := description }

/-- A pipeline of literal substitution filters, given as pattern-replacement
pairs. -/
def litPipeline (fs : List (Bytes × Bytes)) : ContentFilterList :=
  fs.map (fun f => RegexFilterLit f.1 f.2 "")

/-- Folding the substitutions directly (what applying `litPipeline` does). -/
def pipeApply (fs : List (Bytes × Bytes)) (s : Bytes) : Bytes :=
  fs.foldl (fun acc f => goReplaceAll f.1 f.2 acc) s

/-! SHA-256 (crypto/sha256.Sum256), implemented bit-for-bit on `Nat` with
explicit reduction mod 2^32. -/

/-- Truncation to a 32-bit word. -/
def w32 (n : Nat) : Nat := n % 4294967296

/-- Right rotation of a 32-bit word. -/
def rotr (n x : Nat) : Nat := w32 ((x >>> n) ||| (x <<< (32 - n)))

/-- SHA-256 round constants, in decimal. -/
def shaK : List Nat :=
  [1116352408, 1899447441, 3049323471, 3921009573, 961987163, 1508970993,
   2453635748, 2870763221, 3624381080, 310598401, 607225278, 1426881987,
   1925078388, 2162078206, 2614888103, 3248222580, 3835390401, 4022224774,
   264347078, 604807628, 770255983, 1249150122, 1555081692, 1996064986,
   2554220882, 2821834349, 2952996808, 3210313671, 3336571891, 3584528711,
   113926993, 338241895, 666307205, 773529912, 1294757372, 1396182291,
   1695183700, 1986661051, 2177026350, 2456956037, 2730485921, 2820302411,
   3259730800, 3345764771, 3516065817, 3600352804, 4094571909, 275423344,
   430227734, 506948616, 659060556, 883997877, 958139571, 1322822218,
   1537002063, 1747873779, 1955562222, 2024104815, 2227730452, 2361852424,
   2428436474, 2756734187, 3204031479, 3329325298]

/-- Big-endian byte rendering of a value into a fixed number of bytes. -/
def beBytes : Nat → Nat → List Nat
  | 0, _ => []
  | w + 1, v => beBytes w (v / 256) ++ [v % 256]

/-- SHA-256 message padding: a 0x80 byte, zeros to 56 mod 64, and the bit
length in 8 big-endian bytes. -/
def padMessage (msg : List Nat) : List Nat :=
  msg ++ 128 :: List.replicate ((64 - (msg.length + 9) % 64) % 64) 0 ++
    beBytes 8 (8 * msg.length)

/-- Group bytes into big-endian 32-bit words. -/
def toWords : List Nat → List Nat
  | b0 :: b1 :: b2 :: b3 :: rest =>
    (((b0 * 256 + b1) * 256 + b2) * 256 + b3) :: toWords rest
  | _ => []

/-- Group words into 16-word blocks (a trailing short group cannot arise on
padded input but keeps the function total). -/
def toBlocks : List Nat → List (List Nat)
  | [] => []
  | w0 :: w1 :: w2 :: w3 :: w4 :: w5 :: w6 :: w7 ::
    w8 :: w9 :: w10 :: w11 :: w12 :: w13 :: w14 :: w15 :: rest =>
    [w0, w1, w2, w3, w4, w5, w6, w7, w8, w9, w10, w11, w12, w13, w14, w15] ::
      toBlocks rest
  | short => [short]

/-- SHA-256 big sigma 0. -/
def bigSigma0 (x : Nat) : Nat := rotr 2 x ^^^ rotr 13 x ^^^ rotr 22 x

/-- SHA-256 big sigma 1. -/
def bigSigma1 (x : Nat) : Nat := rotr 6 x ^^^ rotr 11 x ^^^ rotr 25 x

/-- SHA-256 small sigma 0. -/
def smallSigma0 (x : Nat) : Nat := rotr 7 x ^^^ rotr 18 x ^^^ (x >>> 3)

/-- SHA-256 small sigma 1. -/
def smallSigma1 (x : Nat) : Nat := rotr 17 x ^^^ rotr 19 x ^^^ (x >>> 10)

/-- SHA-256 choice function (32-bit complement written as xor with all-ones). -/
def chf (x y z : Nat) : Nat := (x &&& y) ^^^ ((x ^^^ 4294967295) &&& z)

/-- SHA-256 majority function. -/
def majf (x y z : Nat) : Nat := (x &&& y) ^^^ (x &&& z) ^^^ (y &&& z)

/-- Extend the 16-word block with the given number of schedule words. -/
def extendW (ws : List Nat) : Nat → List Nat
  | 0 => ws
  | n + 1 =>
    let t := ws.length
    let w := w32 (smallSigma1 (ws.getD (t - 2) 0) + ws.getD (t - 7) 0 +
                  smallSigma0 (ws.getD (t - 15) 0) + ws.getD (t - 16) 0)
    extendW (ws ++ [w]) n

/-- The eight 32-bit working variables of the SHA-256 compression function. -/
structure Hash8 where
  a : Nat
  b : Nat
  c : Nat
  d : Nat
  e : Nat
  f : Nat
  g : Nat
  h : Nat

/-- Initial SHA-256 hash value, in decimal. -/
def shaH0 : Hash8 :=
  ⟨1779033703, 3144134277, 1013904242, 2773480762,
   1359893119, 2600822924, 528734635, 1541459225⟩

/-- One SHA-256 compression round for the round constant and schedule word. -/
def shaRound (st : Hash8) (kw : Nat × Nat) : Hash8 :=
  let t1 := w32 (st.h + bigSigma1 st.e + chf st.e st.f st.g + kw.1 + kw.2)
  let t2 := w32 (bigSigma0 st.a + majf st.a st.b st.c)
  ⟨w32 (t1 + t2), st.a, st.b, st.c, w32 (st.d + t1), st.e, st.f, st.g⟩

/-- Compress one 512-bit block into the running hash state. -/
def compressBlock (st : Hash8) (block : List Nat) : Hash8 :=
  let ws := extendW block 48
  let r := (shaK.zip ws).foldl shaRound st
  ⟨w32 (st.a + r.a), w32 (st.b + r.b), w32 (st.c + r.c), w32 (st.d + r.d),
   w32 (st.e + r.e), w32 (st.f + r.f), w32 (st.g + r.g), w32 (st.h + r.h)⟩

/-- SHA-256 digest of a byte buffer, as its 32 bytes. -/
def sha256 (msg : List Nat) : List Nat :=
  let st := (toBlocks (toWords (padMessage msg))).foldl compressBlock shaH0
  beBytes 4 st.a ++ beBytes 4 st.b ++ beBytes 4 st.c ++ beBytes 4 st.d ++
    beBytes 4 st.e ++ beBytes 4 st.f ++ beBytes 4 st.g ++ beBytes 4 st.h

/-! The timestamp filter (NewTimestampFilter in pkg/monitor/filters.go): its
pattern is the alternation of an ISO-8601/RFC3339 date-time with zone, a
compact numeric timestamp with zone, and a bare 10-13 digit epoch value.  The
compiled pattern is embedded as a direct leftmost-first matcher, following
Go's regexp semantics (alternatives tried in order, leftmost match wins,
quantifiers greedy, matches non-overlapping). -/

/-- ASCII digit test. -/
def isDigit (b : Nat) : Bool := 48 ≤ b && b ≤ 57

/-- Consume exactly the given number of digits. -/
def takeDigits : Nat → Bytes → Option Bytes
  | 0, s => some s
  | n + 1, c :: rest => if isDigit c then takeDigits n rest else none
  | _ + 1, [] => none

/-- Consume one given byte. -/
def takeByte (b : Nat) : Bytes → Option Bytes
  | c :: rest => if c == b then some rest else none
  | [] => none

/-- Consume a plus or minus sign. -/
def takeSign : Bytes → Option Bytes
  | c :: rest => if c == 43 || c == 45 then some rest else none
  | [] => none

/-- Zone suffix of the ISO alternative: a sign, two digits, an optional colon
and two digits. -/
def matchZone : Bytes → Option Bytes
  | c :: rest =>
    if c == 43 || c == 45 then
      match takeDigits 2 rest with
      | none => none
      | some r1 =>
        match r1 with
        | 58 :: r2 => takeDigits 2 r2
        | _ => takeDigits 2 r1
    else if c == 90 then some rest
    else none
  | [] => none

/-- Length matched by the ISO-8601/RFC3339 alternative at the buffer head. -/
def matchISO (s : Bytes) : Option Nat := do
  let r ← takeDigits 4 s
  let r ← takeByte 45 r
  let r ← takeDigits 2 r
  let r ← takeByte 45 r
  let r ← takeDigits 2 r
  let r ← takeByte 84 r
  let r ← takeDigits 2 r
  let r ← takeByte 58 r
  let r ← takeDigits 2 r
  let r ← takeByte 58 r
  let r ← takeDigits 2 r
  let r ← matchZone r
  some (s.length - r.length)

/-- Length matched by the compact-timestamp alternative (twelve digits, a
sign, four digits) at the buffer head. -/
def matchCompact (s : Bytes) : Option Nat := do
  let r ← takeDigits 12 s
  let r ← takeSign r
  let r ← takeDigits 4 r
  some (s.length - r.length)

/-- Number of leading ASCII digits. -/
def countDigits : Bytes → Nat
  | c :: rest => if isDigit c then countDigits rest + 1 else 0
  | [] => 0

/-- Length matched by the greedy 10-13 digit epoch alternative. -/
def matchUnix (s : Bytes) : Option Nat :=
  let d := countDigits s
  if 10 ≤ d then some (min d 13) else none

/-- First alternative of the timestamp pattern matching at the buffer head. -/
def matchTimestamp (s : Bytes) : Option Nat :=
  (matchISO s).orElse fun _ => (matchCompact s).orElse fun _ => matchUnix s

/-- Leftmost-first replacement scan of the timestamp pattern, replacing
every match with the literal TIMESTAMP; the first argument counts bytes of
a recognised match still to be consumed. -/
def timestampLoop : Nat → Bytes → Bytes
  | _, [] => []
  | 0, c :: rest =>
    match matchTimestamp (c :: rest) with
    | some n => bytes "TIMESTAMP" ++ timestampLoop (n - 1) rest
    | none => c :: timestampLoop 0 rest
  | skip + 1, _ :: rest => timestampLoop skip rest

/-- Replacement over the whole buffer. -/
def timestampScan (s : Bytes) : Bytes :=
  timestampLoop 0 s

/-- NewTimestampFilter (pkg/monitor/filters.go): the timestamp-ignoring
filter (its construction never fails, the pattern being valid). -/
def NewTimestampFilter : ContentFilter :=
  { apply := timestampScan, descr := "Ignore timestamps" }

/-! The per-target monitor (pkg/monitor/monitor.go). -/

/-- ChangeDetectionMethod: hash, length or custom comparison. -/
inductive ChangeDetectionMethod where
  | hash
  | length
  | custom
deriving DecidableEq

/-- Change: one event on a monitor's change stream.  Absent optional fields
carry Go's zero values. -/
structure Change where
  url : String := ""
  timestamp : Nat := 0
  hasChanged : Bool := false
  statusCode : Nat := 0
  contentType : String := ""
  error : String := ""
  details : String := ""
deriving DecidableEq

/-- Config: the monitor configuration.  Durations are nanosecond counts; the
retry count is kept as a `Nat` (the data model requires it nonnegative).
Field defaults are Go's zero values. -/
structure Config where
  url : String := ""
  interval : Int := 0
  timeout : Int := 0
  headers : List (String × String) := []
  ignoreSelectors : List String := []
  method : ChangeDetectionMethod := ChangeDetectionMethod.hash
  customCompareFn : Option (Bytes → Bytes → Bool × String) := none
  retryCount : Nat := 0
  retryInterval : Int := 0
  followRedirects : Bool := false
  includeResponseBody : Bool := false
  normalizeWhitespace : Bool := false
  contentFilters : ContentFilterList := []
  ignoreTimestamps : Bool := false

/-- Monitor: the per-target state.  `stopped` stands for the cancellation of
the monitor's context (`Stop` cancels it); `runLoops` counts how many
monitoring loops `go m.run()` has spawned, making the goroutine effect of
`Start` visible to theorems. -/
structure Monitor where
  config : Config
  lastContent : Option Bytes := none
  lastCheck : Nat := 0
  checkCount : Int := 0
  status : String := ""
  isFirstCheck : Bool := false
  filters : ContentFilterList := []
  stopped : Bool := false
  runLoops : Nat := 0

/-- DefaultConfig: five-minute interval, thirty-second timeout, hash method,
three retries ten seconds apart, redirects followed. -/
def DefaultConfig (url : String) : Config :=
  { url := url
    interval := 300000000000
    timeout := 30000000000
    method := ChangeDetectionMethod.hash
    retryCount := 3
    retryInterval := 10000000000
    followRedirects := true
    normalizeWhitespace := false
    ignoreTimestamps := false }

/-- NewMonitorWithConfig: wires the filter list (provided filters, then the
default timestamp filter when `ignoreTimestamps` is set) and starts idle
with the first-check flag raised. -/
def NewMonitorWithConfig (config : Config) : Monitor :=
  { config := config
    lastContent := none
    lastCheck := 0
    checkCount := 0
    status := ""
    isFirstCheck := true
    filters := config.contentFilters ++
      (if config.ignoreTimestamps then [NewTimestampFilter] else [])
    stopped := false
    runLoops := 0 }

/-- NewMonitor: default configuration with the given interval. -/
def NewMonitor (url : String) (interval : Int) : Monitor :=
  NewMonitorWithConfig { DefaultConfig url with interval := interval }

/-- Monitor.Start spawns one more monitoring loop (`go m.run()`) and hands
back the change stream; nothing guards against a second spawn. -/
def Monitor.Start (m : Monitor) : Monitor :=
  { m with runLoops := m.runLoops + 1 }

/-- Monitor.Stop cancels the monitor's context. -/
def Monitor.Stop (m : Monitor) : Monitor :=
  { m with stopped := true }

/-- ByteSliceEqual (pkg/utils): length test then elementwise comparison. -/
def byteSliceEqual : Bytes → Bytes → Bool
  | [], [] => true
  | a :: as, b :: bs => a == b && byteSliceEqual as bs
  | _, _ => false

/-- Monitor.calculateHash: the SHA-256 digest of the content. -/
def calculateHash (content : Bytes) : Bytes := sha256 content

/-- First index at which the two buffers hold different bytes, scanning only
the common length (the loop of Monitor.findDifference). -/
def firstDiffIdx : Bytes → Bytes → Option Nat
  | a :: as, b :: bs =>
    if a ≠ b then some 0 else (firstDiffIdx as bs).map (· + 1)
  | _, _ => none

/-- Contiguous slice `l[a:b]` of a byte buffer (Go string slicing). -/
def sliceBytes (l : Bytes) (a b : Nat) : Bytes :=
  (l.drop a).take (b - a)

/-- The difference message for a difference at `diffPos`: the position and up
to twenty bytes of context on each side, clipped to each buffer's bounds
(the natural subtraction in `start` is the Go clamp of `diffPos - 20` at 0). -/
def diffMessage (oldContent newContent : Bytes) (diffPos : Nat) : String :=
  let start := diffPos - 20
  let oldEnd := min (diffPos + 20) oldContent.length
  let newEnd := min (diffPos + 20) newContent.length
  "Content differs at position " ++ toString diffPos ++
    "\nOld: ..." ++ strOf (sliceBytes oldContent start oldEnd) ++
    "...\nNew: ..." ++ strOf (sliceBytes newContent start newEnd) ++ "..."

/-- Monitor.findDifference: describes the first position where the buffers
differ; when no scanned byte differs but the lengths do, the shorter length
is the position; when the buffers are equal it reports the guard message. -/
def findDifference (oldContent newContent : Bytes) : String :=
  match firstDiffIdx oldContent newContent with
  | some dp => diffMessage oldContent newContent dp
  | none =>
    if oldContent.length ≠ newContent.length then
      diffMessage oldContent newContent (min oldContent.length newContent.length)
    else
      "Content changed but no specific difference found"

/-- The difference position findDifference reports (when it reports one). -/
def reportedDiffPos (oldContent newContent : Bytes) : Nat :=
  (firstDiffIdx oldContent newContent).getD
    (min oldContent.length newContent.length)

/-- ASCII whitespace (the bytes `unicode.IsSpace` accepts in ASCII). -/
def isSpaceByte (b : Nat) : Bool :=
  b == 32 || b == 9 || b == 10 || b == 11 || b == 12 || b == 13

/-- Go strings.Fields: the whitespace-separated words of the buffer. -/
def goFields (s : Bytes) : List Bytes :=
  (s.foldr
    (fun b acc =>
      if isSpaceByte b then [] :: acc
      else
        match acc with
        | [] => [[b]]
        | w :: ws => (b :: w) :: ws)
    []).filter (fun w => !w.isEmpty)

/-- Go strings.Join with a single-space separator. -/
def joinSpace (ws : List Bytes) : Bytes :=
  List.intercalate [32] ws

/-- Go strings.TrimSpace: strip leading and trailing whitespace. -/
def trimSpace (s : Bytes) : Bytes :=
  ((s.dropWhile isSpaceByte).reverse.dropWhile isSpaceByte).reverse

/-- Monitor.normalizeContent: normalize line endings, and when whitespace
normalization is configured collapse whitespace runs and trim. -/
def normalizeContent (m : Monitor) (content : Bytes) : Bytes :=
  if content.length = 0 then content
  else
    let str := goReplaceAll (bytes "\r\n") (bytes "\n") content
    let str := goReplaceAll (bytes "\r") (bytes "\n") str
    if m.config.normalizeWhitespace then
      trimSpace (joinSpace (goFields str))
    else str

/-- The comparison buffers of Monitor.detectChange: the stored and current
content after the filter pipeline (when any filter is attached) and after
whitespace normalization (when configured); first component from the stored
content, second from the current. -/
def compareBuffers (m : Monitor) (last content : Bytes) : Bytes × Bytes :=
  let compareContent := if m.filters.length > 0 then applyFilters m.filters content else content
  let compareLast := if m.filters.length > 0 then applyFilters m.filters last else last
  if m.config.normalizeWhitespace then
    (normalizeContent m compareLast, normalizeContent m compareContent)
  else
    (compareLast, compareContent)

/-- Monitor.detectChange: on the first call the content is stored and no
change is reported; otherwise the configured method compares the filtered
and normalized buffers (the two components of `compareBuffers`, playing the
`compareLast`/`compareContent` locals of the source), and on a change the
original current content becomes the stored baseline. -/
def detectChange (m : Monitor) (content : Bytes) : Monitor × Bool × String :=
  match m.lastContent with
  | none => ({ m with lastContent := some content }, false, "")
  | some last =>
    match m.config.method with
    | ChangeDetectionMethod.hash =>
      if byteSliceEqual (calculateHash (compareBuffers m last content).2)
          (calculateHash (compareBuffers m last content).1) then
        (m, false, "")
      else
        ({ m with lastContent := some content }, true,
          findDifference (compareBuffers m last content).1 (compareBuffers m last content).2)
    | ChangeDetectionMethod.length =>
      if (compareBuffers m last content).1.length ≠ (compareBuffers m last content).2.length then
        ({ m with lastContent := some content }, true,
          findDifference (compareBuffers m last content).1 (compareBuffers m last content).2)
      else (m, false, "")
    | ChangeDetectionMethod.custom =>
      match m.config.customCompareFn with
      | some fn =>
        if (fn (compareBuffers m last content).1 (compareBuffers m last content).2).1 then
          ({ m with lastContent := some content }, true,
            (fn (compareBuffers m last content).1 (compareBuffers m last content).2).2)
        else (m, false, "")
      | none => (m, false, "")

/-! The check cycle (Monitor.performCheck and Monitor.fetchContent).  The
network is an oracle handing each attempt its outcome: a transport error
from the HTTP client, a response whose body fails to read, or a response
with a body.  Wall-clock reads (`time.Now()`) take the value `now`. -/

/-- Outcome of one HTTP GET as seen by Monitor.fetchContent. -/
inductive FetchOutcome where
  | transportError (msg : String)
  | readError (statusCode : Nat) (contentType : String) (msg : String)
  | body (statusCode : Nat) (contentType : String) (content : Bytes)

/-- Monitor.fetchContent: the partially filled event for this response, and
either the body or the failure.  A transport error yields the zero event; a
status outside [200,300) fails with the unexpected-status message before the
body is read. -/
def fetchContent (cfg : Config) (outcome : FetchOutcome) (now : Nat) :
    Change × Except String Bytes :=
  match outcome with
  | FetchOutcome.transportError e => ({}, Except.error e)
  | FetchOutcome.readError st ct e =>
    let change : Change := { url := cfg.url, timestamp := now, statusCode := st, contentType := ct }
    if st < 200 ∨ 300 ≤ st then
      (change, Except.error ("unexpected status code: " ++ toString st))
    else
      (change, Except.error e)
  | FetchOutcome.body st ct content =>
    let change : Change := { url := cfg.url, timestamp := now, statusCode := st, contentType := ct }
    if st < 200 ∨ 300 ≤ st then
      (change, Except.error ("unexpected status code: " ++ toString st))
    else
      (change, Except.ok content)

/-- Result of the retry loop of Monitor.performCheck: the last event
produced, the body or terminal failure, how many fetch attempts ran, and
the sleeps taken (one entry, of the configured retry interval, before every
attempt after the first). -/
structure LoopResult where
  change : Change
  result : Except String Bytes
  attempts : Nat
  sleeps : List Int

/-- The retry loop of Monitor.performCheck: attempt `i` fetches with outcome
`outcomes i`; on success the loop breaks, on failure with attempts left it
sleeps the retry interval and retries, and on the last attempt it
synthesizes the error event (URL, timestamp and error only).  Called with
`i = 0` and `left = retryCount`, so attempts run `i = 0 .. retryCount`. -/
def fetchLoop (cfg : Config) (outcomes : Nat → FetchOutcome) (now : Nat) :
    Nat → Nat → LoopResult
  | i, 0 =>
    match fetchContent cfg (outcomes i) now with
    | (change, Except.ok content) => ⟨change, Except.ok content, i + 1, []⟩
    | (_, Except.error e) =>
      ⟨{ url := cfg.url, timestamp := now, error := e }, Except.error e, i + 1, []⟩
  | i, left + 1 =>
    match fetchContent cfg (outcomes i) now with
    | (change, Except.ok content) => ⟨change, Except.ok content, i + 1, []⟩
    | (_, Except.error _) =>
      { fetchLoop cfg outcomes now (i + 1) left with
          sleeps := cfg.retryInterval :: (fetchLoop cfg outcomes now (i + 1) left).sleeps }

/-- Result of one whole check cycle: the monitor afterwards, the events sent
on its change stream, and the loop's attempt and sleep instrumentation. -/
structure CheckResult where
  monitor : Monitor
  events : List Change
  attempts : Nat
  sleeps : List Int

/-- The monitor at the start of a check cycle: check counted, status set to
checking (the first locked block of performCheck). -/
def checkingMonitor (m : Monitor) : Monitor :=
  { m with checkCount := m.checkCount + 1, status := "checking" }

/-- The monitor at the end of a successful cycle: check time recorded,
status back to idle, first-check flag consumed (the second locked block of
performCheck). -/
def finishMonitor (m2 : Monitor) (now : Nat) : Monitor :=
  { m2 with lastCheck := now, status := "idle", isFirstCheck := false }

/-- Monitor.performCheck: count the check and mark it running; run the retry
loop (the configuration never changes, so it reads `m.config`); a terminal
failure sends the synthesized error event and ends the cycle there; a
success runs change detection, records the check and consumes the
first-check flag (`isFirstCheck` is untouched by detectChange, so reading
it from detectChange's monitor is reading it from `m`), and sends one
change event exactly when a change was detected on a non-first cycle. -/
def performCheck (m : Monitor) (outcomes : Nat → FetchOutcome) (now : Nat) :
    CheckResult :=
  match fetchLoop m.config outcomes now 0 m.config.retryCount with
  | ⟨change, Except.error _, attempts, sleeps⟩ =>
    ⟨checkingMonitor m, [change], attempts, sleeps⟩
  | ⟨change, Except.ok content, attempts, sleeps⟩ =>
    if (detectChange (checkingMonitor m) content).1.isFirstCheck then
      ⟨finishMonitor (detectChange (checkingMonitor m) content).1 now, [], attempts, sleeps⟩
    else if (detectChange (checkingMonitor m) content).2.1 then
      ⟨finishMonitor (detectChange (checkingMonitor m) content).1 now,
        [{ change with
            hasChanged := true
            details := (detectChange (checkingMonitor m) content).2.2 }],
        attempts, sleeps⟩
    else
      ⟨finishMonitor (detectChange (checkingMonitor m) content).1 now, [], attempts, sleeps⟩

/-! The coordinator (Manager in pkg/monitor/manager.go).  Go maps become
association lists keyed by URL or group name; the monitors a manager owns
are stored by value, each operation returning the updated manager.
`forwarders` counts the forwarding goroutines `go m.forwardChanges(...)`
spawned, and `cancelled`/`channelClosed` stand for the manager context and
the shared change channel. -/

/-- Association-list lookup (Go map indexing). -/
def alLookup {α : Type} (l : List (String × α)) (k : String) : Option α :=
  (l.find? (fun p => p.1 == k)).map (fun p => p.2)

/-- Map a function over the entry with the given key. -/
def alUpdate {α : Type} (l : List (String × α)) (k : String) (f : α → α) :
    List (String × α) :=
  l.map (fun p => if p.1 = k then (p.1, f p.2) else p)

/-- MonitorGroup: a named set of monitor references, kept as the member
URLs (the group never owns a monitor). -/
structure MonitorGroup where
  name : String
  description : String
  monitors : List String

/-- Manager: registry of monitors by URL, groups by name, the shared change
channel (its closed flag), the manager context (its cancelled flag) and the
count of forwarding goroutines spawned. -/
structure Manager where
  monitors : List (String × Monitor) := []
  groups : List (String × MonitorGroup) := []
  cancelled : Bool := false
  channelClosed : Bool := false
  forwarders : Nat := 0

/-- NewManager: empty registry and groups, live context and channel. -/
def NewManager : Manager := {}

/-- Manager.AddMonitor: rejects an empty URL or a URL already registered,
otherwise registers the monitor; the error (if any) is returned beside the
(unchanged, in that case) manager. -/
def Manager.AddMonitor (mgr : Manager) (monitor : Monitor) : Manager × Option String :=
  let url := monitor.config.url
  if url = "" then
    (mgr, some "URL cannot be empty")
  else if (alLookup mgr.monitors url).isSome then
    (mgr, some ("monitor for URL '" ++ url ++ "' already exists"))
  else
    ({ mgr with monitors := mgr.monitors ++ [(url, monitor)] }, none)

/-- Manager.AddMonitorWithConfig: rejects an empty URL or a nonpositive
interval, then builds the monitor and registers it through AddMonitor. -/
def Manager.AddMonitorWithConfig (mgr : Manager) (config : Config) :
    Manager × Option Monitor × Option String :=
  if config.url = "" then
    (mgr, none, some "URL cannot be empty")
  else if config.interval ≤ 0 then
    (mgr, none, some "interval must be greater than zero")
  else
    match mgr.AddMonitor (NewMonitorWithConfig config) with
    | (mgr2, none) => (mgr2, some (NewMonitorWithConfig config), none)
    | (mgr2, some e) => (mgr2, none, some e)

/-- Manager.CreateGroup: rejects a duplicate name, otherwise records the
empty group. -/
def Manager.CreateGroup (mgr : Manager) (name description : String) :
    Manager × Option MonitorGroup × Option String :=
  if (alLookup mgr.groups name).isSome then
    (mgr, none, some ("group '" ++ name ++ "' already exists"))
  else
    let group : MonitorGroup := ⟨name, description, []⟩
    ({ mgr with groups := mgr.groups ++ [(name, group)] }, some group, none)

/-- Manager.AddToGroup: requires the URL and the group to exist, then makes
the monitor a member of the group (map assignment: already a member means
no change). -/
def Manager.AddToGroup (mgr : Manager) (url groupName : String) :
    Manager × Option String :=
  if (alLookup mgr.monitors url).isNone then
    (mgr, some ("no monitor found for URL '" ++ url ++ "'"))
  else if (alLookup mgr.groups groupName).isNone then
    (mgr, some ("group '" ++ groupName ++ "' does not exist"))
  else
    let addMember := fun (g : MonitorGroup) =>
      if url ∈ g.monitors then g else { g with monitors := g.monitors ++ [url] }
    ({ mgr with groups := alUpdate mgr.groups groupName addMember }, none)

/-- Manager.RemoveMonitor: fails on an unknown URL; otherwise stops the
monitor, deletes its URL from every group and drops it from the registry.
The stopped monitor (the final state of the shared object) is returned on
success. -/
def Manager.RemoveMonitor (mgr : Manager) (url : String) :
    Manager × Except String Monitor :=
  match alLookup mgr.monitors url with
  | none => (mgr, Except.error ("no monitor found for URL '" ++ url ++ "'"))
  | some monitor =>
    ({ mgr with
        groups := mgr.groups.map
          (fun p => (p.1, { p.2 with monitors := p.2.monitors.filter (fun u => u ≠ url) })),
        monitors := mgr.monitors.filter (fun p => p.1 ≠ url) },
      Except.ok monitor.Stop)

/-- Manager.GetMonitor: read-only registry lookup. -/
def Manager.GetMonitor (mgr : Manager) (url : String) : Except String Monitor :=
  match alLookup mgr.monitors url with
  | none => Except.error ("no monitor found for URL '" ++ url ++ "'")
  | some monitor => Except.ok monitor

/-- Manager.ListMonitors: the registered URLs. -/
def Manager.ListMonitors (mgr : Manager) : List String :=
  mgr.monitors.map (fun p => p.1)

/-- Manager.Start: starts every registered monitor and spawns one
forwarding goroutine per monitor, already-started monitors included. -/
def Manager.Start (mgr : Manager) : Manager :=
  { mgr with
      monitors := mgr.monitors.map (fun p => (p.1, p.2.Start)),
      forwarders := mgr.forwarders + mgr.monitors.length }

/-- Manager.StartMonitor: fails on an unknown URL, otherwise starts that
monitor (unconditionally) and spawns one forwarding goroutine. -/
def Manager.StartMonitor (mgr : Manager) (url : String) : Manager × Option String :=
  match alLookup mgr.monitors url with
  | none => (mgr, some ("no monitor found for URL '" ++ url ++ "'"))
  | some _ =>
    ({ mgr with
        monitors := alUpdate mgr.monitors url Monitor.Start,
        forwarders := mgr.forwarders + 1 },
      none)

/-- Manager.StartGroup: fails on an unknown group, otherwise starts every
member monitor and spawns one forwarding goroutine per member. -/
def Manager.StartGroup (mgr : Manager) (groupName : String) : Manager × Option String :=
  match alLookup mgr.groups groupName with
  | none => (mgr, some ("group '" ++ groupName ++ "' does not exist"))
  | some g =>
    ({ mgr with
        monitors := mgr.monitors.map
          (fun p => if p.1 ∈ g.monitors then (p.1, p.2.Start) else p),
        forwarders := mgr.forwarders + g.monitors.length },
      none)

/-- Manager.Stop: cancels the manager context, stops every monitor, and
then closes the shared change channel (without awaiting the forwarding
goroutines). -/
def Manager.Stop (mgr : Manager) : Manager :=
  { mgr with
      cancelled := true,
      monitors := mgr.monitors.map (fun p => (p.1, p.2.Stop)),
      channelClosed := true }

/-! The shutdown interleaving of Manager.Stop with one forwarding goroutine
(Manager.forwardChanges), as a labelled transition system.  The forwarder
runs `for change := range changes { select { case changeChannel <- change;
case <-ctx.Done(): return } }`; Manager.Stop runs `cancel()` and then, with
no synchronization on the forwarders, `close(changeChannel)`.  In Go a
select whose send case names a closed channel may pick that case and panic,
so a state where the channel is closed while the forwarder is inside the
select with an event in hand is a send-on-closed-channel fault waiting on
the scheduler. -/

/-- Position of the forwarding goroutine: blocked on the monitor's private
stream, inside the select holding an event, or returned. -/
inductive FwdPhase where
  | waiting
  | pendingSend
  | exited
deriving DecidableEq

/-- Joint state of the coordinator shutdown and one forwarder. -/
structure SysState where
  cancelled : Bool
  closed : Bool
  fwd : FwdPhase
  monitorEvent : Bool
deriving DecidableEq

/-- Interleaved small steps of the monitor, its forwarder and Manager.Stop.
`emit`: the monitor completes a check and hands an event to its private
stream.  `recv`: the forwarder receives it and enters the select.
`deliver`: the select sends it on the open shared channel.  `selectDone` /
`rangeDone`: the forwarder observes the cancelled context, or its input
stream closing, and returns.  `stopCancel` then `stopClose` are the two
halves of Manager.Stop, with no wait between them. -/
inductive StopStep : SysState → SysState → Prop where
  | emit (s : SysState) : s.cancelled = false →
      StopStep s { s with monitorEvent := true }
  | recv (s : SysState) : s.fwd = FwdPhase.waiting → s.monitorEvent = true →
      StopStep s { s with fwd := FwdPhase.pendingSend, monitorEvent := false }
  | deliver (s : SysState) : s.fwd = FwdPhase.pendingSend → s.closed = false →
      StopStep s { s with fwd := FwdPhase.waiting }
  | selectDone (s : SysState) : s.fwd = FwdPhase.pendingSend → s.cancelled = true →
      StopStep s { s with fwd := FwdPhase.exited }
  | rangeDone (s : SysState) : s.fwd = FwdPhase.waiting → s.cancelled = true →
      StopStep s { s with fwd := FwdPhase.exited }
  | stopCancel (s : SysState) : s.cancelled = false →
      StopStep s { s with cancelled := true }
  | stopClose (s : SysState) : s.cancelled = true → s.closed = false →
      StopStep s { s with closed := true }

/-- Reachability along shutdown steps. -/
def StopReachable : SysState → SysState → Prop :=
  Relation.ReflTransGen StopStep

/-- Initial state: nothing cancelled or closed, the forwarder waiting. -/
def stopInit : SysState :=
  ⟨false, false, FwdPhase.waiting, false⟩

/-- States in which the forwarder is inside the select with an event while
the shared channel is already closed: the select may execute its send case,
a send on a closed channel. -/
def unsafeSend (s : SysState) : Prop :=
  s.closed = true ∧ s.fwd = FwdPhase.pendingSend

/-! Helper lemmas shared by the claim theorems. -/

theorem checkingMonitor_isFirstCheck (m : Monitor) :
    (checkingMonitor m).isFirstCheck = m.isFirstCheck := rfl

theorem checkingMonitor_config (m : Monitor) :
    (checkingMonitor m).config = m.config := rfl

theorem detectChange_isFirstCheck (m : Monitor) (c : Bytes) :
    (detectChange m c).1.isFirstCheck = m.isFirstCheck := by
  unfold detectChange
  rcases m.lastContent with _ | last
  · rfl
  · rcases m.config.method
    · dsimp only
      split <;> rfl
    · dsimp only
      split <;> rfl
    · dsimp only
      rcases m.config.customCompareFn with _ | fn
      · rfl
      · dsimp only
        split <;> rfl

theorem detectChange_config (m : Monitor) (c : Bytes) :
    (detectChange m c).1.config = m.config := by
  unfold detectChange
  rcases m.lastContent with _ | last
  · rfl
  · rcases m.config.method
    · dsimp only
      split <;> rfl
    · dsimp only
      split <;> rfl
    · dsimp only
      rcases m.config.customCompareFn with _ | fn
      · rfl
      · dsimp only
        split <;> rfl

theorem byteSliceEqual_iff (a b : Bytes) : byteSliceEqual a b = true ↔ a = b := by
  induction a generalizing b with
  | nil => cases b <;> simp [byteSliceEqual]
  | cons x xs ih =>
    cases b with
    | nil => simp [byteSliceEqual]
    | cons y ys => simp [byteSliceEqual, ih]

/-- C1.  On the very first change-detection call for a target (no previous
content stored) the detector reports changed = false with empty details and
adopts the current content as baseline; and a check cycle that fetches
successfully while the first-check flag is raised emits no event at all on
the change stream — baseline adoption only. -/
theorem c1_first_observation_baseline :
    (∀ (m : Monitor) (content : Bytes), m.lastContent = none →
      detectChange m content = ({ m with lastContent := some content }, false, "")) ∧
    (∀ (m : Monitor) (outcomes : Nat → FetchOutcome) (now : Nat)
      (ch : Change) (c : Bytes) (att : Nat) (sl : List Int),
      m.isFirstCheck = true →
      fetchLoop m.config outcomes now 0 m.config.retryCount = ⟨ch, Except.ok c, att, sl⟩ →
      (performCheck m outcomes now).events = []) := by
  constructor
  · intro m content h
    unfold detectChange
    rw [h]
  · intro m outcomes now ch c att sl hfirst hfetch
    unfold performCheck
    rw [hfetch]
    dsimp only
    rw [detectChange_isFirstCheck]
    simp [checkingMonitor, hfirst]

/-- Witness for C1 at a concrete monitor and content. -/
theorem c1_first_observation_baseline_witness :
    (NewMonitor "https://example.com" 5).lastContent = none ∧
    detectChange (NewMonitor "https://example.com" 5) (bytes "Hello") =
      ({ NewMonitor "https://example.com" 5 with lastContent := some (bytes "Hello") },
        false, "") ∧
    (performCheck (NewMonitor "https://example.com" 5)
      (fun _ => FetchOutcome.body 200 "text/plain" (bytes "Hello")) 7).events = [] := by
  refine ⟨rfl, ?_, ?_⟩
  · exact c1_first_observation_baseline.1 _ _ rfl
  · exact c1_first_observation_baseline.2 _ _ 7
      ⟨"https://example.com", 7, false, 200, "text/plain", "", ""⟩
      (bytes "Hello") 1 [] rfl rfl

/-- C5.  Whatever the detection method, whenever detectChange reports
changed = true the new stored baseline is exactly the original, unfiltered,
un-normalized current content. -/
theorem c5_baseline_is_original_content (m : Monitor) (content : Bytes)
    (h : (detectChange m content).2.1 = true) :
    (detectChange m content).1.lastContent = some content := by
  revert h
  unfold detectChange
  rcases m.lastContent with _ | last
  · intro h
    simp at h
  · rcases m.config.method
    · dsimp only
      split
      · intro h
        simp at h
      · intro _
        rfl
    · dsimp only
      split
      · intro _
        rfl
      · intro h
        simp at h
    · dsimp only
      rcases m.config.customCompareFn with _ | fn
      · intro h
        simp at h
      · dsimp only
        split
        · intro _
          rfl
        · intro h
          simp at h

/-- C2 as frozen is false on the code: this successful, completed second
check cycle (the target's first observation was the cycle before, so the
first-check flag is down) emits no event at all, because the content is
unchanged — not the exactly one event per completed cycle the claim
requires. -/
theorem c2_unchanged_cycle_counterexample :
    (performCheck (NewMonitorWithConfig { url := "u", interval := 1 })
        (fun _ => FetchOutcome.body 200 "" (bytes "x")) 3).monitor.isFirstCheck = false ∧
    (fetchLoop (performCheck (NewMonitorWithConfig { url := "u", interval := 1 })
          (fun _ => FetchOutcome.body 200 "" (bytes "x")) 3).monitor.config
        (fun _ => FetchOutcome.body 200 "" (bytes "x")) 4 0
        (performCheck (NewMonitorWithConfig { url := "u", interval := 1 })
          (fun _ => FetchOutcome.body 200 "" (bytes "x")) 3).monitor.config.retryCount).result =
      Except.ok (bytes "x") ∧
    (performCheck
        (performCheck (NewMonitorWithConfig { url := "u", interval := 1 })
          (fun _ => FetchOutcome.body 200 "" (bytes "x")) 3).monitor
        (fun _ => FetchOutcome.body 200 "" (bytes "x")) 4).events.length = 0 := by
  refine ⟨by decide, rfl, by decide⟩

/-- C2 amended.  A completed check cycle emits at most one event: exactly
one on terminal fetch failure; on fetch success, exactly one precisely when
the cycle is not the target's first successful one and the detector reports
a change, and none otherwise. -/
theorem c2_events_per_cycle (m : Monitor) (outcomes : Nat → FetchOutcome) (now : Nat) :
    (performCheck m outcomes now).events.length ≤ 1 ∧
    (∀ e, (fetchLoop m.config outcomes now 0 m.config.retryCount).result = Except.error e →
      (performCheck m outcomes now).events.length = 1) ∧
    (∀ (ch : Change) (c : Bytes) (att : Nat) (sl : List Int),
      fetchLoop m.config outcomes now 0 m.config.retryCount = ⟨ch, Except.ok c, att, sl⟩ →
      (performCheck m outcomes now).events.length =
        if m.isFirstCheck = false ∧ (detectChange (checkingMonitor m) c).2.1 = true
        then 1 else 0) := by
  refine ⟨?_, ?_, ?_⟩
  · unfold performCheck
    rcases hfl : fetchLoop m.config outcomes now 0 m.config.retryCount with ⟨ch, res, att, sl⟩
    rcases res with e | c
    · simp
    · dsimp only
      split
      · simp
      · split <;> simp
  · intro e he
    unfold performCheck
    rcases hfl : fetchLoop m.config outcomes now 0 m.config.retryCount with ⟨ch, res, att, sl⟩
    rw [hfl] at he
    simp only at he
    subst he
    simp
  · intro ch c att sl hfetch
    unfold performCheck
    rw [hfetch]
    dsimp only
    rw [detectChange_isFirstCheck, checkingMonitor_isFirstCheck]
    rcases hf : m.isFirstCheck <;>
      by_cases hc : (detectChange (checkingMonitor m) c).2.1 = true <;>
        simp [hf, hc]

/-- Witness for C2 amended, on a changed non-first cycle: exactly one event. -/
theorem c2_events_per_cycle_witness :
    (performCheck
        { config := { url := "u", interval := 1 }
          lastContent := some (bytes "x") }
        (fun _ => FetchOutcome.body 200 "" (bytes "y")) 5).events.length = 1 := by
  have h := (c2_events_per_cycle
    { config := { url := "u", interval := 1 }
      lastContent := some (bytes "x") }
    (fun _ => FetchOutcome.body 200 "" (bytes "y")) 5).2.2
    ⟨"u", 5, false, 200, "", "", ""⟩ (bytes "y") 1 [] rfl
  rw [h]
  decide

theorem alLookup_filter_ne {α : Type} (l : List (String × α)) (url : String) :
    alLookup (l.filter (fun p => p.1 ≠ url)) url = none := by
  unfold alLookup
  rw [List.find?_eq_none.mpr]
  · rfl
  · intro x hx
    have hne := (List.mem_filter.mp hx).2
    simp only [ne_eq, decide_not, Bool.not_eq_eq_eq_not, Bool.not_true,
      decide_eq_false_iff_not] at hne
    simp [hne]

theorem alLookup_alUpdate {α : Type} (l : List (String × α)) (k : String) (f : α → α) :
    alLookup (alUpdate l k f) k = (alLookup l k).map f := by
  induction l with
  | nil => rfl
  | cons p t ih =>
    by_cases hp : p.1 = k
    · simp [alUpdate, alLookup, hp]
    · have hp2 : (p.1 == k) = false := by simpa using hp
      simp only [alUpdate, alLookup, List.map_cons, List.find?] at ih ⊢
      simp only [if_neg hp, hp2]
      simpa [alLookup, alUpdate] using ih

/-- C6 as frozen is false on the code: Manager.AddMonitor does not validate
the interval.  A monitor built with interval 0 (≤ 0) is accepted by
AddMonitor on a fresh manager and the registry grows. -/
theorem c6_interval_unchecked_counterexample :
    (NewMonitor "https://example.com" 0).config.interval ≤ 0 ∧
    (NewManager.AddMonitor (NewMonitor "https://example.com" 0)).2 = none ∧
    (NewManager.AddMonitor (NewMonitor "https://example.com" 0)).1.monitors.length = 1 := by
  refine ⟨by decide, rfl, by decide⟩

/-- C6 amended.  AddMonitorWithConfig fails exactly when the URL is empty,
the interval is nonpositive, or the URL is already registered; AddMonitor
fails exactly when the URL is empty or already registered (it does not
check the interval); every failed add leaves the manager unchanged, and a
successful AddMonitor grows the registry by exactly one entry. -/
theorem c6_add_monitor_validation (mgr : Manager) (monitor : Monitor) (cfg : Config) :
    ((mgr.AddMonitor monitor).2 = none ↔
      monitor.config.url ≠ "" ∧ (alLookup mgr.monitors monitor.config.url).isSome = false) ∧
    ((mgr.AddMonitor monitor).2.isSome = true → (mgr.AddMonitor monitor).1 = mgr) ∧
    ((mgr.AddMonitorWithConfig cfg).2.2 = none ↔
      cfg.url ≠ "" ∧ 0 < cfg.interval ∧ (alLookup mgr.monitors cfg.url).isSome = false) ∧
    ((mgr.AddMonitorWithConfig cfg).2.2.isSome = true → (mgr.AddMonitorWithConfig cfg).1 = mgr) ∧
    ((mgr.AddMonitor monitor).2 = none →
      (mgr.AddMonitor monitor).1.monitors.length = mgr.monitors.length + 1) := by
  have hover : ∀ (m2 : Monitor), (mgr.AddMonitor m2).2 = none ↔
      m2.config.url ≠ "" ∧ (alLookup mgr.monitors m2.config.url).isSome = false := by
    intro m2
    unfold Manager.AddMonitor
    by_cases hu : m2.config.url = "" <;>
      by_cases hr : (alLookup mgr.monitors m2.config.url).isSome = true <;>
        simp [hu, hr]
  have hunch : ∀ (m2 : Monitor), (mgr.AddMonitor m2).2.isSome = true →
      (mgr.AddMonitor m2).1 = mgr := by
    intro m2
    unfold Manager.AddMonitor
    by_cases hu : m2.config.url = "" <;>
      by_cases hr : (alLookup mgr.monitors m2.config.url).isSome = true <;>
        simp [hu, hr]
  refine ⟨hover monitor, hunch monitor, ?_, ?_, ?_⟩
  · unfold Manager.AddMonitorWithConfig
    by_cases hu : cfg.url = ""
    · simp [hu]
    · by_cases hi : cfg.interval ≤ 0
      · rw [if_neg hu, if_pos hi]
        constructor
        · intro hcon
          exact absurd hcon (by simp)
        · intro hcon
          omega
      · rcases ha : mgr.AddMonitor (NewMonitorWithConfig cfg) with ⟨mgr2, e⟩
        have hiff := hover (NewMonitorWithConfig cfg)
        rw [ha] at hiff
        rw [if_neg hu, if_neg hi]
        rcases e with _ | e
        · dsimp only
          have hreg : (alLookup mgr.monitors cfg.url).isSome = false :=
            (hiff.mp rfl).2
          constructor
          · intro _
            exact ⟨hu, by omega, hreg⟩
          · intro _
            rfl
        · dsimp only
          constructor
          · intro hcon
            exact absurd hcon (by simp)
          · intro hcon
            have : (some e : Option String) = none := hiff.mpr ⟨hu, hcon.2.2⟩
            exact absurd this (by simp)
  · unfold Manager.AddMonitorWithConfig
    by_cases hu : cfg.url = ""
    · rw [if_pos hu]
      intro _
      rfl
    · by_cases hi : cfg.interval ≤ 0
      · rw [if_neg hu, if_pos hi]
        intro _
        rfl
      · rcases ha : mgr.AddMonitor (NewMonitorWithConfig cfg) with ⟨mgr2, e⟩
        have hu2 := hunch (NewMonitorWithConfig cfg)
        rw [ha] at hu2
        rw [if_neg hu, if_neg hi]
        rcases e with _ | e
        · dsimp only
          intro hcon
          exact absurd hcon (by simp)
        · dsimp only
          intro _
          exact hu2 (by simp)
  · intro hok
    revert hok
    unfold Manager.AddMonitor
    by_cases hu : monitor.config.url = "" <;>
      by_cases hr : (alLookup mgr.monitors monitor.config.url).isSome = true <;>
        simp [hu, hr]

/-- Witness for C6 amended: a fresh manager accepts a valid configuration,
and rejects a duplicate URL leaving the registry unchanged. -/
theorem c6_add_monitor_validation_witness :
    ((NewManager.AddMonitorWithConfig { url := "u", interval := 5 }).2.2 = none) ∧
    ((Manager.AddMonitor { monitors := [("u", NewMonitor "u" 5)] } (NewMonitor "u" 5)).2.isSome = true) ∧
    ((Manager.AddMonitor { monitors := [("u", NewMonitor "u" 5)] } (NewMonitor "u" 5)).1 =
      { monitors := [("u", NewMonitor "u" 5)] }) := by
  refine ⟨?_, ?_, ?_⟩
  · exact (c6_add_monitor_validation NewManager (NewMonitor "u" 5)
      { url := "u", interval := 5 }).2.2.1.mpr ⟨by decide, by decide, by decide⟩
  · decide
  · exact (c6_add_monitor_validation { monitors := [("u", NewMonitor "u" 5)] }
      (NewMonitor "u" 5) { url := "u", interval := 5 }).2.1 (by decide)

/-- C7.  RemoveMonitor on a registered URL stops that monitor, removes the
URL from every group and from the registry; on an unknown URL it fails with
an error and leaves the manager unchanged. -/
theorem c7_remove_monitor (mgr : Manager) (url : String) :
    (∀ monitor, alLookup mgr.monitors url = some monitor →
      (mgr.RemoveMonitor url).2 = Except.ok monitor.Stop ∧
      monitor.Stop.stopped = true ∧
      alLookup (mgr.RemoveMonitor url).1.monitors url = none ∧
      (∀ p, p ∈ (mgr.RemoveMonitor url).1.groups → url ∉ p.2.monitors)) ∧
    (alLookup mgr.monitors url = none →
      (∃ e, (mgr.RemoveMonitor url).2 = Except.error e) ∧
      (mgr.RemoveMonitor url).1 = mgr) := by
  constructor
  · intro monitor hm
    unfold Manager.RemoveMonitor
    rw [hm]
    refine ⟨rfl, rfl, ?_, ?_⟩
    · simp only
      exact alLookup_filter_ne mgr.monitors url
    · intro p hp
      simp only [List.mem_map] at hp
      obtain ⟨q, hq, hpq⟩ := hp
      subst hpq
      simp only
      intro hmem
      have := (List.mem_filter.mp hmem).2
      simp at this
  · intro hm
    unfold Manager.RemoveMonitor
    rw [hm]
    exact ⟨⟨_, rfl⟩, rfl⟩

/-- Witness for C7 at a one-monitor, one-group manager and an unknown URL. -/
theorem c7_remove_monitor_witness :
    (Manager.RemoveMonitor
        { monitors := [("u", NewMonitor "u" 1)], groups := [("g", ⟨"g", "d", ["u"]⟩)] }
        "u").2 = Except.ok (NewMonitor "u" 1).Stop ∧
    alLookup (Manager.RemoveMonitor
        { monitors := [("u", NewMonitor "u" 1)], groups := [("g", ⟨"g", "d", ["u"]⟩)] }
        "u").1.monitors "u" = none ∧
    (Manager.RemoveMonitor
        { monitors := [("u", NewMonitor "u" 1)], groups := [("g", ⟨"g", "d", ["u"]⟩)] }
        "v").1 =
      { monitors := [("u", NewMonitor "u" 1)], groups := [("g", ⟨"g", "d", ["u"]⟩)] } := by
  have h1 := (c7_remove_monitor
    { monitors := [("u", NewMonitor "u" 1)], groups := [("g", ⟨"g", "d", ["u"]⟩)] }
    "u").1 (NewMonitor "u" 1) rfl
  have h2 := (c7_remove_monitor
    { monitors := [("u", NewMonitor "u" 1)], groups := [("g", ⟨"g", "d", ["u"]⟩)] }
    "v").2 rfl
  exact ⟨h1.1, h1.2.2.1, h2.2⟩

/-- C8 as frozen is false on the code: Start spawns a fresh monitoring loop
on every call, so starting an already-started monitor runs a second check
loop, and a second Manager.Start spawns a second forwarder: the doubly
started manager differs from the singly started one. -/
theorem c8_start_not_idempotent_counterexample :
    ((NewMonitor "u" 1).Start).runLoops = 1 ∧
    (((NewMonitor "u" 1).Start).Start).runLoops = 2 ∧
    (Manager.Start (Manager.Start { monitors := [("u", NewMonitor "u" 1)] })).forwarders = 2 ∧
    (Manager.Start { monitors := [("u", NewMonitor "u" 1)] }).forwarders = 1 ∧
    Manager.Start (Manager.Start { monitors := [("u", NewMonitor "u" 1)] }) ≠
      Manager.Start { monitors := [("u", NewMonitor "u" 1)] } := by
  refine ⟨rfl, rfl, rfl, rfl, ?_⟩
  intro h
  have h2 := congrArg Manager.forwarders h
  simp [Manager.Start] at h2

/-- C8 amended.  Start, StartMonitor and StartGroup begin ticking for the
selected monitors but are not idempotent: every call spawns one fresh run
loop per selected monitor and one fresh forwarding goroutine per selected
monitor, already-running loops notwithstanding; starting a nonempty
registry twice is different from starting it once. -/
theorem c8_start_spawns_per_call (m : Monitor) (mgr : Manager) (url gname : String) :
    (m.Start).runLoops = m.runLoops + 1 ∧
    (mgr.Start).monitors = mgr.monitors.map (fun p => (p.1, p.2.Start)) ∧
    (mgr.Start).forwarders = mgr.forwarders + mgr.monitors.length ∧
    (∀ monitor, alLookup mgr.monitors url = some monitor →
      (mgr.StartMonitor url).2 = none ∧
      alLookup (mgr.StartMonitor url).1.monitors url = some monitor.Start ∧
      (mgr.StartMonitor url).1.forwarders = mgr.forwarders + 1) ∧
    (alLookup mgr.monitors url = none →
      (mgr.StartMonitor url).1 = mgr ∧ (mgr.StartMonitor url).2.isSome = true) ∧
    (∀ g, alLookup mgr.groups gname = some g →
      (mgr.StartGroup gname).1.forwarders = mgr.forwarders + g.monitors.length) ∧
    (mgr.monitors ≠ [] → mgr.Start.Start ≠ mgr.Start) := by
  refine ⟨rfl, rfl, rfl, ?_, ?_, ?_, ?_⟩
  · intro monitor hm
    unfold Manager.StartMonitor
    rw [hm]
    refine ⟨rfl, ?_, rfl⟩
    simp only
    rw [alLookup_alUpdate, hm]
    rfl
  · intro hm
    unfold Manager.StartMonitor
    rw [hm]
    exact ⟨rfl, rfl⟩
  · intro g hg
    unfold Manager.StartGroup
    rw [hg]
  · intro hne h
    have h4 : 0 < mgr.monitors.length := List.length_pos_iff_ne_nil.mpr hne
    have h2 := congrArg Manager.forwarders h
    simp only [Manager.Start, List.length_map] at h2
    omega

/-- Witness for C8 amended at a one-monitor manager. -/
theorem c8_start_spawns_per_call_witness :
    (Manager.StartMonitor { monitors := [("u", NewMonitor "u" 1)] } "u").2 = none ∧
    alLookup (Manager.StartMonitor { monitors := [("u", NewMonitor "u" 1)] } "u").1.monitors "u" =
      some (NewMonitor "u" 1).Start ∧
    Manager.Start (Manager.Start { monitors := [("u", NewMonitor "u" 1)] }) ≠
      Manager.Start { monitors := [("u", NewMonitor "u" 1)] } := by
  have h := c8_start_spawns_per_call (NewMonitor "u" 1)
    { monitors := [("u", NewMonitor "u" 1)] } "u" "g"
  have h1 := h.2.2.2.1 (NewMonitor "u" 1) rfl
  exact ⟨h1.1, h1.2.1, h.2.2.2.2.2.2 (by simp)⟩

/-- C10 is violated by the code: from the initial state, the monitor can
emit an event, the forwarder can pick it up and enter the select, and then
Manager.Stop can cancel and immediately close the shared channel — no step
of Stop waits for the forwarder — reaching a state where the channel is
closed while the forwarder still holds an event inside the select.  In Go,
the select may then execute its send case: a send on a closed channel. -/
theorem c10_send_on_closed_reachable :
    StopReachable stopInit ⟨true, true, FwdPhase.pendingSend, false⟩ ∧
    unsafeSend ⟨true, true, FwdPhase.pendingSend, false⟩ := by
  constructor
  · refine Relation.ReflTransGen.head (StopStep.emit stopInit rfl) ?_
    refine Relation.ReflTransGen.head (StopStep.recv _ rfl rfl) ?_
    refine Relation.ReflTransGen.head (StopStep.stopCancel _ rfl) ?_
    exact Relation.ReflTransGen.single (StopStep.stopClose _ rfl rfl)
  · exact ⟨rfl, rfl⟩

theorem firstDiffIdx_le (A : Bytes) :
    ∀ (B : Bytes) (k : Nat), k < A.length → k < B.length → A.getD k 0 ≠ B.getD k 0 →
      ∃ i, firstDiffIdx A B = some i ∧ i ≤ k := by
  induction A with
  | nil =>
    intro B k hk
    simp at hk
  | cons a as ih =>
    intro B k hkA hkB hne
    rcases B with _ | ⟨b, bs⟩
    · simp at hkB
    · by_cases hab : a = b
      · rcases k with _ | k
        · simp [List.getD, hab] at hne
        · obtain ⟨i, hi, hile⟩ := ih bs k (by simpa using hkA) (by simpa using hkB)
            (by simpa [List.getD] using hne)
          refine ⟨i + 1, ?_, by omega⟩
          simp [firstDiffIdx, hab, hi]
      · exact ⟨0, by simp [firstDiffIdx, hab], by omega⟩

theorem firstDiffIdx_first (A : Bytes) :
    ∀ (B : Bytes) (k : Nat), (∀ j, j < k → A.getD j 0 = B.getD j 0) →
      A.getD k 0 ≠ B.getD k 0 → k < A.length → k < B.length →
      firstDiffIdx A B = some k := by
  induction A with
  | nil =>
    intro B k hpre hne hkA
    simp at hkA
  | cons a as ih =>
    intro B k hpre hne hkA hkB
    rcases B with _ | ⟨b, bs⟩
    · simp at hkB
    · rcases k with _ | k
      · have hab : a ≠ b := by simpa [List.getD] using hne
        simp [firstDiffIdx, hab]
      · have hab : a = b := by simpa [List.getD] using hpre 0 (by omega)
        have hrec := ih bs k
          (fun j hj => by simpa [List.getD] using hpre (j + 1) (by omega))
          (by simpa [List.getD] using hne)
          (by simpa using hkA) (by simpa using hkB)
        simp [firstDiffIdx, hab, hrec]

theorem compareBuffers_id (m : Monitor) (last content : Bytes)
    (hfil : m.filters = []) (hnw : m.config.normalizeWhitespace = false) :
    compareBuffers m last content = (last, content) := by
  unfold compareBuffers
  simp [hfil, hnw]

theorem detectChange_hash_details (m : Monitor) (last content : Bytes)
    (hl : m.lastContent = some last)
    (hm : m.config.method = ChangeDetectionMethod.hash)
    (hch : (detectChange m content).2.1 = true) :
    (detectChange m content).2.2 =
      findDifference (compareBuffers m last content).1 (compareBuffers m last content).2 := by
  revert hch
  unfold detectChange
  rw [hl, hm]
  dsimp only
  split
  · intro hch
    simp at hch
  · intro _
    rfl

/-- C4 as frozen is false on the code: with whitespace normalization
enabled, the Hash-method details scan the normalized buffers that were
compared, not the un-normalized ones.  Raw contents differ first at byte 3,
but the reported details are those of the normalized buffers, position 1. -/
theorem c4_unnormalized_scan_counterexample :
    (detectChange
      { config := { url := "u", interval := 1, normalizeWhitespace := true }
        lastContent := some (bytes "  ab") } (bytes "  ac")).2.1 = true ∧
    (detectChange
      { config := { url := "u", interval := 1, normalizeWhitespace := true }
        lastContent := some (bytes "  ab") } (bytes "  ac")).2.2 ≠
      findDifference (bytes "  ab") (bytes "  ac") ∧
    (detectChange
      { config := { url := "u", interval := 1, normalizeWhitespace := true }
        lastContent := some (bytes "  ab") } (bytes "  ac")).2.2 =
      findDifference (bytes "ab") (bytes "ac") ∧
    firstDiffIdx (bytes "  ab") (bytes "  ac") = some 3 := by
  refine ⟨by decide, by decide, by decide, by decide⟩

/-- C4 amended.  When the Hash method reports a change, the details come
from scanning the two comparison buffers (the filtered, normalized old and
new content) for the first differing index, with the shorter length as
fallback index and twenty bytes of clipped context; any index where the
scanned buffers differ bounds the reported first-difference index from
above, with equality at the first differing index; and when no filters are
attached and whitespace normalization is off, the scanned buffers are the
raw stored and current contents themselves. -/
theorem c4_hash_details_position (m : Monitor) (last content A B : Bytes) (k : Nat) :
    (m.lastContent = some last → m.config.method = ChangeDetectionMethod.hash →
      (detectChange m content).2.1 = true →
      (detectChange m content).2.2 =
        findDifference (compareBuffers m last content).1 (compareBuffers m last content).2) ∧
    (k < A.length → k < B.length → A.getD k 0 ≠ B.getD k 0 →
      reportedDiffPos A B ≤ k ∧ firstDiffIdx A B ≠ none) ∧
    ((∀ j, j < k → A.getD j 0 = B.getD j 0) → A.getD k 0 ≠ B.getD k 0 →
      k < A.length → k < B.length →
      firstDiffIdx A B = some k ∧ reportedDiffPos A B = k) ∧
    (m.filters = [] → m.config.normalizeWhitespace = false → m.lastContent = some A →
      m.config.method = ChangeDetectionMethod.hash → (detectChange m B).2.1 = true →
      (detectChange m B).2.2 = findDifference A B) := by
  refine ⟨detectChange_hash_details m last content, ?_, ?_, ?_⟩
  · intro hkA hkB hne
    obtain ⟨i, hi, hile⟩ := firstDiffIdx_le A B k hkA hkB hne
    constructor
    · simpa [reportedDiffPos, hi] using hile
    · simp [hi]
  · intro hpre hne hkA hkB
    have hfi := firstDiffIdx_first A B k hpre hne hkA hkB
    exact ⟨hfi, by simp [reportedDiffPos, hfi]⟩
  · intro hfil hnw hl hm hch
    rw [detectChange_hash_details m A B hl hm hch, compareBuffers_id m A B hfil hnw]

/-- Witness for C4 amended on raw two-byte contents differing at index 1. -/
theorem c4_hash_details_position_witness :
    (detectChange
      { config := { url := "u", interval := 1 }
        lastContent := some (bytes "ab") } (bytes "ac")).2.1 = true ∧
    (detectChange
      { config := { url := "u", interval := 1 }
        lastContent := some (bytes "ab") } (bytes "ac")).2.2 =
      findDifference (bytes "ab") (bytes "ac") ∧
    reportedDiffPos (bytes "ab") (bytes "ac") ≤ 1 ∧
    firstDiffIdx (bytes "ab") (bytes "ac") = some 1 := by
  have h := c4_hash_details_position
    { config := { url := "u", interval := 1 }
      lastContent := some (bytes "ab") }
    (bytes "ab") (bytes "ac") (bytes "ab") (bytes "ac") 1
  have hch : (detectChange
      { config := { url := "u", interval := 1 }
        lastContent := some (bytes "ab") } (bytes "ac")).2.1 = true := by decide
  refine ⟨hch, ?_, ?_, ?_⟩
  · exact h.2.2.2 rfl rfl rfl rfl hch
  · exact (h.2.1 (by decide) (by decide) (by decide)).1
  · exact (h.2.2.1 (by decide) (by decide) (by decide) (by decide)).1

/-! Lemmas on byte-buffer occurrences, towards the idempotence analysis of
substitution-filter pipelines (C9). -/

theorem listPre_nil (s : List Nat) : listPre [] s := ⟨s, rfl⟩

theorem listPre_of_nil {x : List Nat} (h : listPre x []) : x = [] := by
  obtain ⟨t, ht⟩ := h
  exact (List.append_eq_nil.mp ht).1

theorem listInf_of_nil {x : List Nat} (h : listInf x []) : x = [] := by
  obtain ⟨u, v, huv⟩ := h
  have h1 := List.append_eq_nil.mp huv
  exact (List.append_eq_nil.mp h1.1).2

theorem listInf_of_listPre {x s : List Nat} (h : listPre x s) : listInf x s := by
  obtain ⟨t, ht⟩ := h
  exact ⟨[], t, ht⟩

theorem listInf_cons_of {x t : List Nat} (c : Nat) (h : listInf x t) :
    listInf x (c :: t) := by
  obtain ⟨u, v, huv⟩ := h
  exact ⟨c :: u, v, by simp [huv]⟩

theorem listPre_cons_of {x t : List Nat} (c : Nat) (h : listPre x t) :
    listPre (c :: x) (c :: t) := by
  obtain ⟨w, hw⟩ := h
  exact ⟨w, by simp [hw]⟩

theorem listInf_of_drop {x s : List Nat} (k : Nat) (h : listInf x (s.drop k)) :
    listInf x s := by
  obtain ⟨u, v, huv⟩ := h
  refine ⟨s.take k ++ u, v, ?_⟩
  have hassoc : (s.take k ++ u) ++ x ++ v = s.take k ++ (u ++ x ++ v) := by simp
  rw [hassoc, huv, List.take_append_drop]

theorem listInf_cons_cases {x : List Nat} {c : Nat} {t : List Nat}
    (h : listInf x (c :: t)) : listPre x (c :: t) ∨ listInf x t := by
  obtain ⟨u, v, huv⟩ := h
  rcases u with _ | ⟨d, u2⟩
  · exact Or.inl ⟨v, by simpa using huv⟩
  · right
    simp only [List.cons_append, List.cons.injEq] at huv
    exact ⟨u2, v, huv.2⟩

theorem listPre_cons_elim {x : List Nat} {c : Nat} {t : List Nat}
    (h : listPre x (c :: t)) : x = [] ∨ ∃ x2, x = c :: x2 ∧ listPre x2 t := by
  rcases x with _ | ⟨d, x2⟩
  · exact Or.inl rfl
  · obtain ⟨w, hw⟩ := h
    simp only [List.cons_append, List.cons.injEq] at hw
    exact Or.inr ⟨x2, by rw [hw.1], ⟨w, hw.2⟩⟩

theorem isPrefixB_iff : ∀ (x s : List Nat), isPrefixB x s = true ↔ listPre x s := by
  intro x
  induction x with
  | nil =>
    intro s
    simp [isPrefixB, listPre_nil]
  | cons a as ih =>
    intro s
    rcases s with _ | ⟨b, bs⟩
    · constructor
      · intro h
        simp [isPrefixB] at h
      · intro h
        obtain ⟨t, ht⟩ := h
        simp at ht
    · simp only [isPrefixB, Bool.and_eq_true, beq_iff_eq, ih bs]
      constructor
      · intro ⟨hab, t, ht⟩
        exact ⟨t, by simp [hab, ht]⟩
      · intro ⟨t, ht⟩
        simp only [List.cons_append, List.cons.injEq] at ht
        exact ⟨ht.1, t, ht.2⟩

theorem replaceLoop_skip (pc : Nat) (pr r : List Nat) :
    ∀ (s : List Nat) (k : Nat),
      replaceLoop pc pr r k s = replaceLoop pc pr r 0 (s.drop k) := by
  intro s
  induction s with
  | nil =>
    intro k
    rcases k with _ | k <;> rfl
  | cons c rest ih =>
    intro k
    rcases k with _ | k
    · rfl
    · simpa [replaceLoop] using ih k

theorem replaceLoop_no_occurrence_id (pc : Nat) (pr r : List Nat) :
    ∀ (s : List Nat), ¬ listInf (pc :: pr) s → replaceLoop pc pr r 0 s = s := by
  intro s
  induction s with
  | nil =>
    intro _
    rfl
  | cons c rest ih =>
    intro hno
    have hpre : isPrefixB (pc :: pr) (c :: rest) = false := by
      by_contra hcon
      rw [Bool.not_eq_false, isPrefixB_iff] at hcon
      exact hno (listInf_of_listPre hcon)
    rw [replaceLoop, hpre]
    simp only [Bool.false_eq_true, if_false]
    rw [ih (fun hinf => hno (listInf_cons_of c hinf))]

theorem listInf_append_cases {x : List Nat} :
    ∀ (a b : List Nat), listInf x (a ++ b) → (∀ c ∈ x, c ∉ a) → x = [] ∨ listInf x b := by
  intro a
  induction a with
  | nil =>
    intro b h _
    exact Or.inr (by simpa using h)
  | cons d a2 ih =>
    intro b h hdisj
    rw [List.cons_append] at h
    rcases listInf_cons_cases h with hp | hi
    · rcases listPre_cons_elim hp with hx | ⟨x2, hx, -⟩
      · exact Or.inl hx
      · exact absurd (by simp) (fun hd => hdisj d (by simp [hx]) hd)
    · exact ih b hi (fun c hc hca => hdisj c hc (by simp [hca]))

theorem replaceLoop_pre_transfer (qc : Nat) (qr r : List Nat) (hr : r ≠ []) :
    ∀ (n : Nat) (s : List Nat), s.length ≤ n →
      ∀ (x : List Nat), (∀ c ∈ x, c ∉ r) →
      listPre x (replaceLoop qc qr r 0 s) → listPre x s := by
  intro n
  induction n with
  | zero =>
    intro s hs x hx h
    have hsnil : s = [] := List.eq_nil_of_length_eq_zero (Nat.le_zero.mp hs)
    subst hsnil
    rw [listPre_of_nil h]
    exact listPre_nil []
  | succ n ih =>
    intro s hs x hx h
    rcases s with _ | ⟨c, rest⟩
    · rw [listPre_of_nil h]
      exact listPre_nil []
    · by_cases hm : isPrefixB (qc :: qr) (c :: rest) = true
      · simp only [replaceLoop, hm, if_true] at h
        rcases x with _ | ⟨y, x2⟩
        · exact listPre_nil _
        · exfalso
          obtain ⟨t, ht⟩ := h
          rcases r with _ | ⟨rc, r2⟩
          · exact hr rfl
          · simp only [List.cons_append, List.cons.injEq] at ht
            exact hx y (by simp) (by simp [ht.1])
      · simp only [replaceLoop, hm, Bool.false_eq_true, if_false] at h
        rcases listPre_cons_elim h with hx0 | ⟨x2, hxeq, hx2⟩
        · rw [hx0]
          exact listPre_nil _
        · have hrest := ih rest (by simpa using hs) x2
            (fun ch hch => hx ch (by simp [hxeq, hch])) hx2
          rw [hxeq]
          exact listPre_cons_of c hrest

theorem replaceLoop_inf_transfer (qc : Nat) (qr r : List Nat) (hr : r ≠ []) :
    ∀ (n : Nat) (s : List Nat), s.length ≤ n →
      ∀ (x : List Nat), x ≠ [] → (∀ c ∈ x, c ∉ r) →
      listInf x (replaceLoop qc qr r 0 s) → listInf x s := by
  intro n
  induction n with
  | zero =>
    intro s hs x hxne hx h
    have hsnil : s = [] := List.eq_nil_of_length_eq_zero (Nat.le_zero.mp hs)
    subst hsnil
    exact absurd (listInf_of_nil (by simpa [replaceLoop] using h)) hxne
  | succ n ih =>
    intro s hs x hxne hx h
    rcases s with _ | ⟨c, rest⟩
    · exact absurd (listInf_of_nil (by simpa [replaceLoop] using h)) hxne
    · have hrestlen : rest.length ≤ n := by simpa using hs
      by_cases hm : isPrefixB (qc :: qr) (c :: rest) = true
      · simp only [replaceLoop, hm, if_true] at h
        rcases listInf_append_cases r _ h hx with hnil | hT
        · exact absurd hnil hxne
        · rw [replaceLoop_skip] at hT
          have hd := ih (rest.drop qr.length)
            (le_trans (by simp only [List.length_drop]; omega) hrestlen)
            x hxne hx hT
          exact listInf_cons_of c (listInf_of_drop qr.length hd)
      · simp only [replaceLoop, hm, Bool.false_eq_true, if_false] at h
        rcases listInf_cons_cases h with hp | hi
        · rcases listPre_cons_elim hp with hx0 | ⟨x2, hxeq, hx2⟩
          · exact absurd hx0 hxne
          · have hpre := replaceLoop_pre_transfer qc qr r hr n rest hrestlen x2
              (fun ch hch => hx ch (by simp [hxeq, hch])) hx2
            rw [hxeq]
            exact listInf_of_listPre (listPre_cons_of c hpre)
        · exact listInf_cons_of c (ih rest hrestlen x hxne hx hi)

theorem replaceLoop_out_free (pc : Nat) (pr r : List Nat) (hr : r ≠ [])
    (hdisj : ∀ c ∈ pc :: pr, c ∉ r) :
    ∀ (n : Nat) (s : List Nat), s.length ≤ n →
      ¬ listInf (pc :: pr) (replaceLoop pc pr r 0 s) := by
  intro n
  induction n with
  | zero =>
    intro s hs h
    have hsnil : s = [] := List.eq_nil_of_length_eq_zero (Nat.le_zero.mp hs)
    subst hsnil
    simp [replaceLoop] at h
    exact absurd (listInf_of_nil h) (by simp)
  | succ n ih =>
    intro s hs h
    rcases s with _ | ⟨c, rest⟩
    · simp [replaceLoop] at h
      exact absurd (listInf_of_nil h) (by simp)
    · have hrestlen : rest.length ≤ n := by simpa using hs
      by_cases hm : isPrefixB (pc :: pr) (c :: rest) = true
      · simp only [replaceLoop, hm, if_true] at h
        rcases listInf_append_cases r _ h hdisj with hnil | hT
        · simp at hnil
        · rw [replaceLoop_skip] at hT
          exact ih (rest.drop pr.length)
            (le_trans (by simp only [List.length_drop]; omega) hrestlen) hT
      · simp only [replaceLoop, hm, Bool.false_eq_true, if_false] at h
        rcases listInf_cons_cases h with hp | hi
        · rcases listPre_cons_elim hp with hx0 | ⟨x2, hxeq, hx2⟩
          · simp at hx0
          · have hceq : pc = c ∧ pr = x2 := by
              have := hxeq
              simp only [List.cons.injEq] at this
              exact ⟨this.1, this.2⟩
            have hpre := replaceLoop_pre_transfer pc pr r hr n rest hrestlen x2
              (fun ch hch => hdisj ch (by simp [hceq.2, hch])) hx2
            apply hm
            rw [isPrefixB_iff, hceq.1, hceq.2]
            exact listPre_cons_of c hpre
        · exact ih rest hrestlen hi

theorem goReplaceAll_no_occurrence_id {p : Bytes} (r s : Bytes) (hp : p ≠ [])
    (h : ¬ listInf p s) : goReplaceAll p r s = s := by
  rcases p with _ | ⟨pc, pr⟩
  · exact absurd rfl hp
  · exact replaceLoop_no_occurrence_id pc pr r s h

theorem goReplaceAll_out_free {p : Bytes} (r s : Bytes) (hp : p ≠ []) (hr : r ≠ [])
    (hdisj : ∀ c ∈ p, c ∉ r) : ¬ listInf p (goReplaceAll p r s) := by
  rcases p with _ | ⟨pc, pr⟩
  · exact absurd rfl hp
  · exact replaceLoop_out_free pc pr r hr hdisj s.length s le_rfl

theorem goReplaceAll_inf_transfer {x q : Bytes} (r2 s : Bytes) (hq : q ≠ [])
    (hr : r2 ≠ []) (hx : x ≠ []) (hdisj : ∀ c ∈ x, c ∉ r2)
    (h : listInf x (goReplaceAll q r2 s)) : listInf x s := by
  rcases q with _ | ⟨qc, qr⟩
  · exact absurd rfl hq
  · exact replaceLoop_inf_transfer qc qr r2 hr s.length s le_rfl x hx hdisj h

theorem pipeApply_preserves_free {x : Bytes} (hxne : x ≠ []) :
    ∀ (gs : List (Bytes × Bytes)) (X : Bytes),
      (∀ g ∈ gs, g.1 ≠ [] ∧ g.2 ≠ []) → (∀ g ∈ gs, ∀ c ∈ x, c ∉ g.2) →
      ¬ listInf x X → ¬ listInf x (pipeApply gs X) := by
  intro gs
  induction gs with
  | nil =>
    intro X _ _ hfree
    simpa [pipeApply] using hfree
  | cons g rest ih =>
    intro X hne hdisj hfree
    rw [show pipeApply (g :: rest) X = pipeApply rest (goReplaceAll g.1 g.2 X) from rfl]
    refine ih (goReplaceAll g.1 g.2 X)
      (fun g2 hg2 => hne g2 (by simp [hg2]))
      (fun g2 hg2 => hdisj g2 (by simp [hg2])) ?_
    intro hcon
    exact hfree (goReplaceAll_inf_transfer g.2 X (hne g (by simp)).1
      (hne g (by simp)).2 hxne (hdisj g (by simp)) hcon)

theorem pipeApply_free (fs : List (Bytes × Bytes)) :
    (∀ f ∈ fs, f.1 ≠ [] ∧ f.2 ≠ []) →
    (∀ f ∈ fs, ∀ g ∈ fs, ∀ c ∈ f.1, c ∉ g.2) →
    ∀ (s : Bytes), ∀ f ∈ fs, ¬ listInf f.1 (pipeApply fs s) := by
  induction fs with
  | nil =>
    intro _ _ s f hf
    simp at hf
  | cons g rest ih =>
    intro hne hdisj s f hf
    rw [show pipeApply (g :: rest) s = pipeApply rest (goReplaceAll g.1 g.2 s) from rfl]
    rcases List.mem_cons.mp hf with hfg | hfrest
    · subst hfg
      refine pipeApply_preserves_free (hne f (by simp)).1 rest (goReplaceAll f.1 f.2 s)
        (fun g2 hg2 => hne g2 (by simp [hg2]))
        (fun g2 hg2 => hdisj f (by simp) g2 (by simp [hg2])) ?_
      exact goReplaceAll_out_free f.2 s (hne f (by simp)).1 (hne f (by simp)).2
        (hdisj f (by simp) f (by simp))
    · exact ih (fun f2 hf2 => hne f2 (by simp [hf2]))
        (fun f2 hf2 g2 hg2 => hdisj f2 (by simp [hf2]) g2 (by simp [hg2]))
        (goReplaceAll g.1 g.2 s) f hfrest

theorem pipeApply_id (fs : List (Bytes × Bytes)) :
    (∀ f ∈ fs, f.1 ≠ []) →
    ∀ (X : Bytes), (∀ f ∈ fs, ¬ listInf f.1 X) → pipeApply fs X = X := by
  induction fs with
  | nil =>
    intro _ X _
    rfl
  | cons g rest ih =>
    intro hne X hfree
    rw [show pipeApply (g :: rest) X = pipeApply rest (goReplaceAll g.1 g.2 X) from rfl]
    rw [goReplaceAll_no_occurrence_id g.2 X (hne g (by simp)) (hfree g (by simp))]
    exact ih (fun f hf => hne f (by simp [hf])) X (fun f hf => hfree f (by simp [hf]))

theorem applyFilters_litPipeline (fs : List (Bytes × Bytes)) :
    ∀ (s : Bytes), applyFilters (litPipeline fs) s = pipeApply fs s := by
  induction fs with
  | nil =>
    intro s
    rfl
  | cons g rest ih =>
    intro s
    exact ih (goReplaceAll g.1 g.2 s)

/-- C9 as frozen is false on the code: the single pure substitution filter
replacing the byte a by aa is not idempotent, since the replacement
recreates matches of the pattern. -/
theorem c9_not_idempotent_counterexample :
    applyFilters (litPipeline [(bytes "a", bytes "aa")])
        (applyFilters (litPipeline [(bytes "a", bytes "aa")]) (bytes "a")) ≠
      applyFilters (litPipeline [(bytes "a", bytes "aa")]) (bytes "a") ∧
    applyFilters (litPipeline [(bytes "a", bytes "aa")]) (bytes "a") = bytes "aa" ∧
    applyFilters (litPipeline [(bytes "a", bytes "aa")])
        (applyFilters (litPipeline [(bytes "a", bytes "aa")]) (bytes "a")) = bytes "aaaa" := by
  refine ⟨by decide, by decide, by decide⟩

/-- C9 amended.  A pipeline of pure literal substitution filters is
idempotent whenever no replacement can create or retain a pattern match:
when every pattern is nonempty, every replacement is nonempty, and no byte
of any pattern occurs in any filter's replacement, applying the pipeline
twice equals applying it once; without that restriction idempotence fails. -/
theorem c9_pipeline_idempotent_noncreating (fs : List (Bytes × Bytes)) (s : Bytes)
    (hne : ∀ f ∈ fs, f.1 ≠ [] ∧ f.2 ≠ [])
    (hdisj : ∀ f ∈ fs, ∀ g ∈ fs, ∀ c ∈ f.1, c ∉ g.2) :
    applyFilters (litPipeline fs) (applyFilters (litPipeline fs) s) =
      applyFilters (litPipeline fs) s := by
  rw [applyFilters_litPipeline, applyFilters_litPipeline]
  exact pipeApply_id fs (fun f hf => (hne f hf).1) (pipeApply fs s)
    (fun f hf => pipeApply_free fs hne hdisj s f hf)

/-- Witness for C9 amended: a two-filter pipeline (a by X, b by Y) is
idempotent on a concrete buffer. -/
theorem c9_pipeline_idempotent_noncreating_witness :
    applyFilters (litPipeline [(bytes "a", bytes "X"), (bytes "b", bytes "Y")])
        (applyFilters (litPipeline [(bytes "a", bytes "X"), (bytes "b", bytes "Y")])
          (bytes "abcab")) =
      applyFilters (litPipeline [(bytes "a", bytes "X"), (bytes "b", bytes "Y")])
        (bytes "abcab") := by
  exact c9_pipeline_idempotent_noncreating
    [(bytes "a", bytes "X"), (bytes "b", bytes "Y")] (bytes "abcab")
    (by decide) (by decide)

/-- Witness for C5: a hash-method monitor with a stored baseline detects a
change and stores the raw new content. -/
theorem fetchLoop_shape (cfg : Config) (outcomes : Nat → FetchOutcome) (now : Nat) :
    ∀ (left i : Nat),
      i + 1 ≤ (fetchLoop cfg outcomes now i left).attempts ∧
      (fetchLoop cfg outcomes now i left).attempts ≤ i + left + 1 ∧
      (fetchLoop cfg outcomes now i left).sleeps =
        List.replicate ((fetchLoop cfg outcomes now i left).attempts - i - 1)
          cfg.retryInterval := by
  intro left
  induction left with
  | zero =>
    intro i
    rcases h : fetchContent cfg (outcomes i) now with ⟨ch, e | c⟩ <;>
      simp [fetchLoop, h]
  | succ left ih =>
    intro i
    rcases h : fetchContent cfg (outcomes i) now with ⟨ch, e | c⟩
    · have h1 := ih (i + 1)
      simp only [fetchLoop, h]
      refine ⟨by omega, by omega, ?_⟩
      have hrep : (fetchLoop cfg outcomes now (i + 1) left).attempts - i - 1 =
          ((fetchLoop cfg outcomes now (i + 1) left).attempts - (i + 1) - 1) + 1 := by
        omega
      rw [hrep, List.replicate_succ]
      exact congrArg _ h1.2.2
    · simp [fetchLoop, h]

theorem fetchLoop_error_change (cfg : Config) (outcomes : Nat → FetchOutcome) (now : Nat) :
    ∀ (left i : Nat) (e : String),
      (fetchLoop cfg outcomes now i left).result = Except.error e →
      (fetchLoop cfg outcomes now i left).attempts = i + left + 1 ∧
      (fetchLoop cfg outcomes now i left).change =
        { url := cfg.url, timestamp := now, error := e } := by
  intro left
  induction left with
  | zero =>
    intro i e he
    rcases h : fetchContent cfg (outcomes i) now with ⟨ch, e2 | c⟩ <;>
      simp_all [fetchLoop, h]
  | succ left ih =>
    intro i e he
    rcases h : fetchContent cfg (outcomes i) now with ⟨ch, e2 | c⟩
    · simp only [fetchLoop, h] at he ⊢
      have h1 := ih (i + 1) e he
      exact ⟨by omega, h1.2⟩
    · simp [fetchLoop, h] at he

theorem fetchLoop_all_fail (cfg : Config) (outcomes : Nat → FetchOutcome) (now : Nat) :
    ∀ (left i : Nat),
      (∀ j, i ≤ j → j ≤ i + left → ∃ e, (fetchContent cfg (outcomes j) now).2 = Except.error e) →
      ∃ e, (fetchLoop cfg outcomes now i left).result = Except.error e := by
  intro left
  induction left with
  | zero =>
    intro i hall
    obtain ⟨e, he⟩ := hall i le_rfl (by omega)
    rcases h : fetchContent cfg (outcomes i) now with ⟨ch, e2 | c⟩
    · exact ⟨e2, by simp [fetchLoop, h]⟩
    · rw [h] at he
      simp at he
  | succ left ih =>
    intro i hall
    rcases h : fetchContent cfg (outcomes i) now with ⟨ch, e2 | c⟩
    · obtain ⟨e, he⟩ := ih (i + 1) (fun j hj1 hj2 => hall j (by omega) (by omega))
      exact ⟨e, by simp only [fetchLoop, h]; exact he⟩
    · obtain ⟨e, he⟩ := hall i le_rfl (by omega)
      rw [h] at he
      simp at he

/-- C3.  Each check cycle fetches at most retryCount + 1 times, sleeping the
retry interval before every attempt except the first; a single fetch fails
exactly on a transport error or a status outside [200,300); and when the
loop ends in failure it ran all retryCount + 1 attempts and the cycle emits
exactly one event carrying only the URL, the timestamp and the error
message (no content, no status). -/
theorem c3_retry_policy (m : Monitor) (outcomes : Nat → FetchOutcome) (now : Nat)
    (L : LoopResult)
    (hL : fetchLoop m.config outcomes now 0 m.config.retryCount = L) :
    1 ≤ L.attempts ∧
    L.attempts ≤ m.config.retryCount + 1 ∧
    L.sleeps = List.replicate (L.attempts - 1) m.config.retryInterval ∧
    (∀ msg, ∃ e,
      (fetchContent m.config (FetchOutcome.transportError msg) now).2 = Except.error e) ∧
    (∀ st ct body,
      (∃ e, (fetchContent m.config (FetchOutcome.body st ct body) now).2 = Except.error e) ↔
        (st < 200 ∨ 300 ≤ st)) ∧
    ((∀ j, j ≤ m.config.retryCount →
        ∃ e, (fetchContent m.config (outcomes j) now).2 = Except.error e) →
      ∃ e, L.result = Except.error e) ∧
    (∀ e, L.result = Except.error e →
      L.attempts = m.config.retryCount + 1 ∧
      (performCheck m outcomes now).events =
        [{ url := m.config.url, timestamp := now, error := e }]) := by
  subst hL
  obtain ⟨hs1, hs2, hs3⟩ := fetchLoop_shape m.config outcomes now m.config.retryCount 0
  refine ⟨hs1, by omega, by simpa using hs3, ?_, ?_, ?_, ?_⟩
  · intro msg
    exact ⟨msg, rfl⟩
  · intro st ct body
    constructor
    · intro ⟨e, he⟩
      by_contra hcon
      push_neg at hcon
      simp [fetchContent, Nat.not_lt.mpr hcon.1, Nat.not_le.mpr hcon.2] at he
    · intro hst
      refine ⟨"unexpected status code: " ++ toString st, ?_⟩
      simp [fetchContent, hst]
  · intro hall
    exact fetchLoop_all_fail m.config outcomes now m.config.retryCount 0
      (fun j hj1 hj2 => hall j (by omega))
  · intro e he
    obtain ⟨hatt, hch⟩ :=
      fetchLoop_error_change m.config outcomes now m.config.retryCount 0 e he
    refine ⟨by omega, ?_⟩
    unfold performCheck
    rcases hfl : fetchLoop m.config outcomes now 0 m.config.retryCount with ⟨ch, res, att, sl⟩
    rw [hfl] at he hch
    simp only at he hch
    subst he
    simp only [hch]

/-- Witness for C3: a fetch that always answers HTTP 500 with retryCount 2
makes exactly three attempts, sleeps twice, and the cycle emits exactly the
one synthesized error event. -/
theorem c3_retry_policy_witness :
    (fetchLoop (NewMonitorWithConfig { url := "u", interval := 1, retryCount := 2, retryInterval := 4 }).config
        (fun _ => FetchOutcome.body 500 "" []) 9 0
        (NewMonitorWithConfig { url := "u", interval := 1, retryCount := 2, retryInterval := 4 }).config.retryCount).attempts = 3 ∧
    (fetchLoop (NewMonitorWithConfig { url := "u", interval := 1, retryCount := 2, retryInterval := 4 }).config
        (fun _ => FetchOutcome.body 500 "" []) 9 0
        (NewMonitorWithConfig { url := "u", interval := 1, retryCount := 2, retryInterval := 4 }).config.retryCount).sleeps = [4, 4] ∧
    (performCheck (NewMonitorWithConfig { url := "u", interval := 1, retryCount := 2, retryInterval := 4 })
        (fun _ => FetchOutcome.body 500 "" []) 9).events =
      [{ url := "u", timestamp := 9, error := "unexpected status code: 500" }] := by
  have h := c3_retry_policy
    (NewMonitorWithConfig { url := "u", interval := 1, retryCount := 2, retryInterval := 4 })
    (fun _ => FetchOutcome.body 500 "" []) 9
    (fetchLoop (NewMonitorWithConfig { url := "u", interval := 1, retryCount := 2, retryInterval := 4 }).config
      (fun _ => FetchOutcome.body 500 "" []) 9 0
      (NewMonitorWithConfig { url := "u", interval := 1, retryCount := 2, retryInterval := 4 }).config.retryCount)
    rfl
  obtain ⟨-, -, -, -, -, -, herr⟩ := h
  have h2 := herr "unexpected status code: 500" rfl
  exact ⟨by decide, by decide, h2.2⟩

theorem c5_baseline_is_original_content_witness :
    (detectChange
      { config := { url := "u", interval := 1 }
        lastContent := some (bytes "old") } (bytes "new")).2.1 = true ∧
    (detectChange
      { config := { url := "u", interval := 1 }
        lastContent := some (bytes "old") } (bytes "new")).1.lastContent =
      some (bytes "new") := by
  constructor
  · decide
  · exact c5_baseline_is_original_content _ _ (by decide)

end Hawkeye
